import Mathlib

/-!
Shallow embedding of the DevSocket relay server (Go, `main` package):
session registry, producer/consumer connection handling, log storage,
fan-out broadcast and the `/logs`, `/health` HTTP handlers.

WebSocket connections are modelled by numeric identifiers.  A global
list `closed` records every connection on which `Close()` has been
called.  Timestamps (`time.Time`) are modelled as integers; the Go zero
time is `0`.  The handlers take the current clock reading (`time.Now()`)
as an explicit argument.
-/

namespace DevSocket

/-- Go struct `LogEntry`: a single log message from a device, with its
timestamp (`ts`) and message text (`msg`). -/
structure LogEntry where
  ts : Int
  msg : String
deriving DecidableEq

/-- Go struct `Session`: a connected device's debug session.  `conn` is
the producer connection (a nilable pointer in Go, hence `Option`);
`tailConns` is the list of consumer connections. -/
structure Session where
  DeviceHash : String
  Name : String
  IPv4 : String
  IPv6 : String
  Connected : Int
  Logs : List LogEntry
  LogCount : Nat
  conn : Option Nat
  tailConns : List Nat
deriving DecidableEq

/-- The server's shared state: the `sessions` map (`deviceHash ->
Session`, modelled as an association list with unique keys in the
reachable states) together with the set of connection ids on which
`Close()` has been called. -/
structure ServerState where
  sessions : List (String × Session)
  closed : List Nat
deriving DecidableEq

/-- Go map read `s.sessions[deviceHash]` (returns the nil pointer,
i.e. `none`, when the key is absent). -/
def lookupSession (m : List (String × Session)) (k : String) : Option Session :=
  match m with
  | [] => none
  | (k', v) :: rest => if k' = k then some v else lookupSession rest k

/-- Go map write `s.sessions[deviceHash] = session`. -/
def updateSession (m : List (String × Session)) (k : String) (v : Session) :
    List (String × Session) :=
  match m with
  | [] => [(k, v)]
  | (k', v') :: rest =>
    if k' = k then (k, v) :: rest else (k', v') :: updateSession rest k v

/-- The fresh `Session` literal built in `handleStream` (part_000 lines
653-662): empty log buffer, empty consumer list, the upgraded
connection as producer. -/
def newSession (device name ipv4 ipv6 : String) (now : Int) (connId : Nat) : Session :=
  { DeviceHash := device
    Name := name
    IPv4 := ipv4
    IPv6 := ipv6
    Connected := now
    Logs := []
    LogCount := 0
    conn := some connId
    tailConns := [] }

/-- The session-replacement step of `handleStream` (part_000 lines
642-664): under the registry lock, if a session already exists for the
device its producer connection is closed (when non-nil); a fresh
session is then installed under the key.  Nothing else of the old
session is touched: in particular its `tailConns` are not closed. -/
def connectProducer (st : ServerState) (device name ipv4 ipv6 : String)
    (connId : Nat) (now : Int) : ServerState :=
  let closed' :=
    match lookupSession st.sessions device with
    | some oldSession =>
      match oldSession.conn with
      | some c => c :: st.closed
      | none => st.closed
    | none => st.closed
  { sessions := updateSession st.sessions device
      (newSession device name ipv4 ipv6 now connId)
    closed := closed' }

/-- Go `checkSecret` (part_000 lines 611-613): plain equality between
the `secret` query parameter (empty string when absent, as
`Query().Get` returns) and the configured secret. -/
def checkSecret (cfgSecret secretParam : String) : Bool :=
  secretParam == cfgSecret

/-- Result of the pre-upgrade phase of `handleStream`. -/
inductive StreamResp
  | unauthorized
  | badRequest
  | connected
deriving DecidableEq

/-- Query parameters of a `/stream` request; each is `""` when the
parameter is absent, matching Go's `Query().Get`. -/
structure StreamQuery where
  secret : String
  device : String
  name : String
  ipv4 : String
  ipv6 : String
deriving DecidableEq

/-- `handleStream`'s validation and connection phase (part_000 lines
616-664): secret check, required `device` parameter, default display
name, then session creation/replacement. -/
def handleStreamConnect (cfgSecret : String) (q : StreamQuery)
    (connId : Nat) (now : Int) (st : ServerState) : StreamResp × ServerState :=
  if !(checkSecret cfgSecret q.secret) then
    (.unauthorized, st)
  else if q.device = "" then
    (.badRequest, st)
  else
    let deviceName := if q.name = "" then "Unknown Device" else q.name
    (.connected, connectProducer st q.device deviceName q.ipv4 q.ipv6 connId now)

/-- The producer CLOSED transition (part_000 lines 672-675): when the
read loop exits, the deferred cleanup calls `conn.Close()` and logs —
the session map is not touched and `session.conn` is never nulled
anywhere in the program. -/
def producerDisconnect (st : ServerState) (connId : Nat) : ServerState :=
  { st with closed := connId :: st.closed }

/-- Response of `handleHealth`. -/
inductive HealthResp
  | unauthorized
  | ok (devices : Nat) (ts : Int)
deriving DecidableEq

/-- `handleHealth` (part_000 lines 923-939): despite the route comment
"Health check (no auth)" it validates the secret like every other
handler, then reports the session count. -/
def handleHealth (cfgSecret secretParam : String) (st : ServerState)
    (now : Int) : HealthResp :=
  if !(checkSecret cfgSecret secretParam) then
    .unauthorized
  else
    .ok st.sessions.length now

/-- Outcome of `json.Unmarshal(message, &entry)` for one inbound frame
(Go standard library, a collaborator of lines 687-694): `failure` when
decoding errors, otherwise the decoded entry (whose `ts` is the Go zero
time `0` when the JSON carried no, or the zero, timestamp). -/
inductive FrameParse
  | failure
  | success (e : LogEntry)
deriving DecidableEq

/-- An inbound producer frame: its raw payload text together with the
outcome of unmarshalling it.  The server's own logic branches only on
this outcome. -/
structure Frame where
  raw : String
  parse : FrameParse
deriving DecidableEq

/-- Frame ingestion (part_000 lines 686-699): on unmarshal failure the
raw payload becomes the message and the arrival time the timestamp;
afterwards a zero timestamp is replaced by the arrival time. -/
def ingestEntry (now : Int) (f : Frame) : LogEntry :=
  let entry :=
    match f.parse with
    | .failure => { ts := now, msg := f.raw }
    | .success e => e
  if entry.ts = 0 then { entry with ts := now } else entry

/-- Storing one entry (part_000 lines 701-705): append under the log
lock and refresh `LogCount`. -/
def appendEntry (sess : Session) (e : LogEntry) : Session :=
  let logs := sess.Logs ++ [e]
  { sess with Logs := logs, LogCount := logs.length }

/-- The dead-connection removal loop body (part_000 lines 735-742):
find the first occurrence of the dead connection in `tailConns` and
remove it. -/
def removeFirstConn (c : Nat) : List Nat → List Nat
  | [] => []
  | x :: xs => if x = c then xs else x :: removeFirstConn c xs

/-- The batch removal over all dead connections (part_000 lines
732-744). -/
def pruneDead (tails : List Nat) (dead : List Nat) : List Nat :=
  dead.foldl (fun acc d => removeFirstConn d acc) tails

/-- One pass of `broadcastToTail` (part_000 lines 713-747).
`writeOk c` is true when the write to connection `c` completes within
its 5-second deadline without error.  Returns the updated session, the
`(connection, entry)` deliveries of the pass, and the connections
closed as dead.  Every connection in the snapshot gets exactly one
write attempt, in order, regardless of earlier failures in the pass. -/
def broadcastToTail (writeOk : Nat → Bool) (sess : Session) (entry : LogEntry) :
    Session × List (Nat × LogEntry) × List Nat :=
  if sess.tailConns.isEmpty then
    (sess, [], [])
  else
    let delivered := (sess.tailConns.filter fun c => writeOk c).map fun c => (c, entry)
    let deadConns := sess.tailConns.filter fun c => !(writeOk c)
    if deadConns.isEmpty then
      (sess, delivered, [])
    else
      ({ sess with tailConns := pruneDead sess.tailConns deadConns },
       delivered, deadConns)

/-- Processing one producer frame while STREAMING (part_000 lines
686-708): ingest, append to the store, then broadcast to the tail
consumers — in that order, synchronously. -/
def processFrame (writeOk : Nat → Bool) (now : Int) (sess : Session) (f : Frame) :
    Session × List (Nat × LogEntry) × List Nat :=
  let e := ingestEntry now f
  let sess1 := appendEntry sess e
  broadcastToTail writeOk sess1 e

/-- Events interleaving producer frames with consumer attach
(`handleTail` lines 780-783) and detach (`handleTail` deferred cleanup,
lines 788-799) on one session. -/
inductive TailEvent
  | frame (f : Frame)
  | attach (c : Nat)
  | detach (c : Nat)

/-- A session together with the delivery and close history of a run. -/
structure TailTraceState where
  sess : Session
  received : List (Nat × LogEntry)
  closed : List Nat
deriving DecidableEq

/-- One event step on a session. -/
def stepTail (writeOk : Nat → Bool) (now : Int) (st : TailTraceState) :
    TailEvent → TailTraceState
  | .frame f =>
    let r := processFrame writeOk now st.sess f
    { sess := r.1, received := st.received ++ r.2.1, closed := st.closed ++ r.2.2 }
  | .attach c =>
    { st with sess := { st.sess with tailConns := st.sess.tailConns ++ [c] } }
  | .detach c =>
    { sess := { st.sess with tailConns := removeFirstConn c st.sess.tailConns }
      received := st.received
      closed := st.closed ++ [c] }

/-- Run a sequence of events on one session. -/
def runTail (writeOk : Nat → Bool) (now : Int) (st : TailTraceState)
    (evs : List TailEvent) : TailTraceState :=
  evs.foldl (stepTail writeOk now) st

/-- A sequence of publish passes on one session (each with its own
write outcomes), accumulating all deliveries. -/
def publishSeq (sess : Session) : List ((Nat → Bool) × LogEntry) →
    Session × List (Nat × LogEntry)
  | [] => (sess, [])
  | p :: rest =>
    let r := broadcastToTail p.1 sess p.2
    let tl := publishSeq r.1 rest
    (tl.1, r.2.1 ++ tl.2)

/-- Models Go `time.ParseDuration` (called via the repo's
`parseDuration` wrapper, part_000 lines 918-920), restricted to the
simple `<digits><s|m|h>` duration strings the tool documents
(`5m`, `1h`, `30s`); the result is in seconds.  Strings outside this
fragment are treated as unparsable, as `time.ParseDuration` also
rejects the ones used in the theorems below. -/
def parseDuration (s : String) : Option Int :=
  match s.toList.getLast? with
  | none => none
  | some u =>
    let digits := s.toList.dropLast
    if digits ≠ [] ∧ digits.all (fun c => c.isDigit) then
      let n : Nat := digits.foldl (fun acc c => acc * 10 + (c.toNat - 48)) 0
      match u with
      | 's' => some (n : Int)
      | 'm' => some ((60 * n : Nat) : Int)
      | 'h' => some ((3600 * n : Nat) : Int)
      | _ => none
    else none

/-- Models the success/failure domain of Go `regexp.Compile` (library
collaborator of part_000 lines 888-893) on bracketed patterns: a
pattern with an unclosed `(` or `[`, or an unmatched `)`, fails to
compile (e.g. `[` alone errors in Go); a lone `]` is a literal and
compiles. -/
def regexValid (p : String) : Bool :=
  (p.toList.foldl
    (fun (st : Option (Nat × Nat)) c =>
      match st with
      | none => none
      | some (par, brk) =>
        if c = '(' then some (par + 1, brk)
        else if c = ')' then (if par = 0 then none else some (par - 1, brk))
        else if c = '[' then some (par, brk + 1)
        else if c = ']' then (if brk = 0 then some (par, brk) else some (par, brk - 1))
        else some (par, brk))
    (some (0, 0))) == some (0, 0)

/-- `charsStartWith p l`: `p` is a prefix of `l`. -/
def charsStartWith : List Char → List Char → Bool
  | [], _ => true
  | _ :: _, [] => false
  | a :: as, b :: bs => a == b && charsStartWith as bs

/-- `charsContain p l`: `p` occurs as a contiguous run inside `l`. -/
def charsContain (p : List Char) : List Char → Bool
  | [] => charsStartWith p []
  | b :: bs => charsStartWith p (b :: bs) || charsContain p bs

/-- Models Go `re.MatchString` (part_000 line 896) for literal
patterns: substring containment. -/
def regexMatches (p s : String) : Bool :=
  charsContain p.toList s.toList

/-- The filtering loop shape used twice in `handleLogs` (part_000
lines 878-884 and 894-900): start from an empty slice and append each
entry satisfying the predicate, in order. -/
def goFilter (p : LogEntry → Bool) (logs : List LogEntry) : List LogEntry :=
  logs.foldl (fun acc e => if p e then acc ++ [e] else acc) []

/-- The time filter of `handleLogs` (part_000 lines 871-885): keep
entries whose timestamp is strictly after the cutoff
(`entry.Timestamp.After(cutoff)`), where `cutoff = now - duration`. -/
def filterSince (cutoff : Int) (logs : List LogEntry) : List LogEntry :=
  goFilter (fun e => cutoff < e.ts) logs

/-- Models `time.Format("2006-01-02 15:04:05.000")` (part_000 line
908) as an injective rendering of the modelled timestamp. -/
def formatTs (t : Int) : String :=
  toString t

/-- Response of `handleLogs`.  The error constructors correspond to
`http.Error` calls, which write only the error line — no log data. -/
inductive LogsResp
  | unauthorized
  | missingDevice
  | notFound
  | invalidSince
  | invalidRegex
  | okText (lines : List String)
  | okJson (entries : List LogEntry)
deriving DecidableEq

/-- Query parameters of a `/logs/{device}` request; each is `""` when
absent. -/
structure LogsQuery where
  secret : String
  since : String
  regex : String
  format : String
deriving DecidableEq

/-- `handleLogs` (part_000 lines 836-915): secret check, device-hash
extraction, session lookup, snapshot copy of the logs, `since` time
filter (400 on unparsable), `regex` filter (400 on invalid pattern),
then `text` or default JSON rendering.  `now` is the `time.Now()`
reading the request observes. -/
def handleLogs (cfgSecret device : String) (q : LogsQuery) (st : ServerState)
    (now : Int) : LogsResp :=
  if !(checkSecret cfgSecret q.secret) then
    .unauthorized
  else if device = "" then
    .missingDevice
  else
    match lookupSession st.sessions device with
    | none => .notFound
    | some session =>
      let logs0 := session.Logs
      let sinceStep : Option (List LogEntry) :=
        if q.since = "" then some logs0
        else
          match parseDuration q.since with
          | none => none
          | some d => some (filterSince (now - d) logs0)
      match sinceStep with
      | none => .invalidSince
      | some logs1 =>
        let regexStep : Option (List LogEntry) :=
          if q.regex = "" then some logs1
          else if regexValid q.regex then
            some (goFilter (fun e => regexMatches q.regex e.msg) logs1)
          else none
        match regexStep with
        | none => .invalidRegex
        | some logs2 =>
          if q.format = "text" then
            .okText (logs2.map fun e => formatTs e.ts ++ "  " ++ e.msg)
          else
            .okJson logs2

/-- The deliveries produced by a run of frames against a fixed
consumer snapshot: one `(conn, entry)` pair per connection per
frame. -/
def deliveriesOf (tails : List Nat) (now : Int) : List Frame → List (Nat × LogEntry)
  | [] => []
  | f :: fs => (tails.map fun c => (c, ingestEntry now f)) ++ deliveriesOf tails now fs

/-- Folding `connectProducer` over a sequence of producer connects for
one device (each item is the connection id and clock reading of one
connect). -/
def connectFold (device name ipv4 ipv6 : String) (l : List (Nat × Int))
    (st : ServerState) : ServerState :=
  l.foldl (fun s p => connectProducer s device name ipv4 ipv6 p.1 p.2) st

theorem lookupSession_updateSession_self (m : List (String × Session))
    (k : String) (v : Session) :
    lookupSession (updateSession m k v) k = some v := by
  induction m with
  | nil => simp [updateSession, lookupSession]
  | cons p rest ih =>
    obtain ⟨k', v'⟩ := p
    by_cases h : k' = k
    · simp [updateSession, lookupSession, h]
    · simp [updateSession, lookupSession, h, ih]

theorem goFilter_eq_filter (p : LogEntry → Bool) (logs : List LogEntry) :
    goFilter p logs = logs.filter p := by
  suffices h : ∀ acc, logs.foldl (fun acc e => if p e then acc ++ [e] else acc) acc
      = acc ++ logs.filter p by
    simpa [goFilter] using h []
  induction logs with
  | nil => intro acc; simp
  | cons e rest ih =>
    intro acc
    by_cases hp : p e <;> simp [hp, ih, List.filter_cons]

theorem mem_removeFirstConn {x c : Nat} {l : List Nat}
    (h : x ∈ removeFirstConn c l) : x ∈ l := by
  induction l with
  | nil => simp [removeFirstConn] at h
  | cons a rest ih =>
    by_cases ha : a = c
    · simp only [removeFirstConn, if_pos ha] at h
      exact List.mem_cons_of_mem _ h
    · simp only [removeFirstConn, if_neg ha, List.mem_cons] at h
      rcases h with h | h
      · exact h ▸ List.mem_cons_self _ _
      · exact List.mem_cons_of_mem _ (ih h)

theorem not_mem_removeFirstConn_self {c : Nat} {l : List Nat}
    (hnd : l.Nodup) : c ∉ removeFirstConn c l := by
  induction l with
  | nil => simp [removeFirstConn]
  | cons a rest ih =>
    rcases List.nodup_cons.mp hnd with ⟨ha, hrest⟩
    by_cases hac : a = c
    · simp only [removeFirstConn, if_pos hac]
      exact hac ▸ ha
    · simp only [removeFirstConn, if_neg hac, List.mem_cons]
      rintro (h | h)
      · exact hac h.symm
      · exact ih hrest h

theorem nodup_removeFirstConn {c : Nat} {l : List Nat}
    (hnd : l.Nodup) : (removeFirstConn c l).Nodup := by
  induction l with
  | nil => simp [removeFirstConn]
  | cons a rest ih =>
    rcases List.nodup_cons.mp hnd with ⟨ha, hrest⟩
    by_cases hac : a = c
    · simpa [removeFirstConn, if_pos hac] using hrest
    · simp only [removeFirstConn, if_neg hac]
      exact List.nodup_cons.mpr ⟨fun hmem => ha (mem_removeFirstConn hmem), ih hrest⟩

theorem mem_pruneDead {x : Nat} {tails dead : List Nat}
    (h : x ∈ pruneDead tails dead) : x ∈ tails := by
  induction dead generalizing tails with
  | nil => simpa [pruneDead] using h
  | cons d rest ih =>
    simp only [pruneDead, List.foldl_cons] at h
    exact mem_removeFirstConn (ih h)

theorem nodup_pruneDead {tails dead : List Nat}
    (hnd : tails.Nodup) : (pruneDead tails dead).Nodup := by
  induction dead generalizing tails with
  | nil => simpa [pruneDead] using hnd
  | cons d rest ih =>
    simp only [pruneDead, List.foldl_cons]
    exact ih (nodup_removeFirstConn hnd)

theorem not_mem_pruneDead {c : Nat} {tails dead : List Nat}
    (hnd : tails.Nodup) (hc : c ∈ dead) : c ∉ pruneDead tails dead := by
  induction dead generalizing tails with
  | nil => cases hc
  | cons d rest ih =>
    simp only [pruneDead, List.foldl_cons]
    rcases List.mem_cons.mp hc with rfl | hc'
    · by_cases hmem : c ∈ rest
      · exact ih (nodup_removeFirstConn hnd) hmem
      · intro habs
        have hmem' : c ∈ removeFirstConn c tails :=
          @mem_pruneDead c (removeFirstConn c tails) rest habs
        exact not_mem_removeFirstConn_self hnd hmem'
    · exact ih (nodup_removeFirstConn hnd) hc'

theorem pruneDead_nil (tails : List Nat) : pruneDead tails [] = tails := rfl

theorem broadcastToTail_sess (writeOk : Nat → Bool) (sess : Session) (entry : LogEntry) :
    (broadcastToTail writeOk sess entry).1
      = { sess with
          tailConns := pruneDead sess.tailConns
            (sess.tailConns.filter fun c => !(writeOk c)) } := by
  obtain ⟨dh, nm, i4, i6, cn, lg, lc, pc, tc⟩ := sess
  unfold broadcastToTail
  by_cases h0 : tc.isEmpty
  · have h0' : tc = [] := List.isEmpty_iff.mp h0
    subst h0'
    simp [pruneDead]
  · simp only [h0, Bool.false_eq_true, if_false]
    by_cases hd : (tc.filter fun c => !(writeOk c)).isEmpty
    · have hd' : (tc.filter fun c => !(writeOk c)) = [] :=
        List.isEmpty_iff.mp hd
      simp [hd, hd', pruneDead]
    · simp [hd]

theorem broadcastToTail_delivered (writeOk : Nat → Bool) (sess : Session)
    (entry : LogEntry) :
    (broadcastToTail writeOk sess entry).2.1
      = (sess.tailConns.filter fun c => writeOk c).map fun c => (c, entry) := by
  unfold broadcastToTail
  by_cases h0 : sess.tailConns.isEmpty
  · have h0' : sess.tailConns = [] := List.isEmpty_iff.mp h0
    simp [h0, h0']
  · simp only [h0, Bool.false_eq_true, if_false]
    by_cases hd : (sess.tailConns.filter fun c => !(writeOk c)).isEmpty <;> simp [hd]

theorem broadcastToTail_dead (writeOk : Nat → Bool) (sess : Session)
    (entry : LogEntry) :
    (broadcastToTail writeOk sess entry).2.2
      = sess.tailConns.filter fun c => !(writeOk c) := by
  unfold broadcastToTail
  by_cases h0 : sess.tailConns.isEmpty
  · have h0' : sess.tailConns = [] := List.isEmpty_iff.mp h0
    simp [h0, h0']
  · simp only [h0, Bool.false_eq_true, if_false]
    by_cases hd : (sess.tailConns.filter fun c => !(writeOk c)).isEmpty
    · have hd' : (sess.tailConns.filter fun c => !(writeOk c)) = [] :=
        List.isEmpty_iff.mp hd
      simp [hd, hd']
    · simp [hd]

theorem broadcastToTail_true (sess : Session) (entry : LogEntry) :
    broadcastToTail (fun _ => true) sess entry
      = (sess, sess.tailConns.map fun c => (c, entry), []) := by
  have h1 := broadcastToTail_sess (fun _ => true) sess entry
  have h2 := broadcastToTail_delivered (fun _ => true) sess entry
  have h3 := broadcastToTail_dead (fun _ => true) sess entry
  simp only [Bool.not_true, List.filter_false, pruneDead_nil, List.filter_true] at h1 h2 h3
  exact Prod.ext h1 (Prod.ext h2 h3)

theorem appendEntry_tailConns (sess : Session) (e : LogEntry) :
    (appendEntry sess e).tailConns = sess.tailConns := rfl

theorem appendEntry_Logs (sess : Session) (e : LogEntry) :
    (appendEntry sess e).Logs = sess.Logs ++ [e] := rfl

theorem mem_broadcastToTail_delivered {writeOk : Nat → Bool} {sess : Session}
    {entry : LogEntry} {c : Nat} {e : LogEntry}
    (h : (c, e) ∈ (broadcastToTail writeOk sess entry).2.1) :
    c ∈ sess.tailConns ∧ writeOk c = true ∧ e = entry := by
  rw [broadcastToTail_delivered] at h
  rcases List.mem_map.mp h with ⟨c', hc', heq⟩
  rcases List.mem_filter.mp hc' with ⟨hmem, hok⟩
  cases heq
  exact ⟨hmem, hok, rfl⟩

theorem broadcastToTail_tailConns_sub {writeOk : Nat → Bool} {sess : Session}
    {entry : LogEntry} {x : Nat}
    (h : x ∈ (broadcastToTail writeOk sess entry).1.tailConns) :
    x ∈ sess.tailConns := by
  rw [broadcastToTail_sess] at h
  exact mem_pruneDead h

theorem publishSeq_not_mem {c : Nat} {sess : Session}
    (h : c ∉ sess.tailConns) (passes : List ((Nat → Bool) × LogEntry))
    (e : LogEntry) : (c, e) ∉ (publishSeq sess passes).2 := by
  induction passes generalizing sess e with
  | nil => simp [publishSeq]
  | cons p rest ih =>
    simp only [publishSeq, List.mem_append]
    rintro (hm | hm)
    · exact h (mem_broadcastToTail_delivered hm).1
    · exact ih (fun hx => h (broadcastToTail_tailConns_sub hx)) e hm

theorem filter_fst_map_replicate (tails : List Nat) (c : Nat) (e : LogEntry) :
    ((tails.map fun x => (x, e)).filter fun q => q.1 == c)
      = List.replicate (tails.count c) (c, e) := by
  induction tails with
  | nil => simp
  | cons x rest ih =>
    by_cases hx : x = c
    · subst hx
      simp [List.filter_cons, List.count_cons, ih, List.replicate_succ]
    · simp [List.filter_cons, List.count_cons, hx, ih, Nat.beq_eq_true_eq]

theorem deliveriesOf_filter_zero {tails : List Nat} {c : Nat}
    (h : tails.count c = 0) (now : Int) (fs : List Frame) :
    ((deliveriesOf tails now fs).filter fun q => q.1 == c) = [] := by
  induction fs with
  | nil => simp [deliveriesOf]
  | cons f rest ih =>
    simp [deliveriesOf, List.filter_append, filter_fst_map_replicate, h, ih]

theorem deliveriesOf_filter_one {tails : List Nat} {c : Nat}
    (h : tails.count c = 1) (now : Int) (fs : List Frame) :
    ((deliveriesOf tails now fs).filter fun q => q.1 == c)
      = fs.map fun f => (c, ingestEntry now f) := by
  induction fs with
  | nil => simp [deliveriesOf]
  | cons f rest ih =>
    simp [deliveriesOf, List.filter_append, filter_fst_map_replicate, h, ih,
      List.replicate_succ]

theorem runTail_append (writeOk : Nat → Bool) (now : Int) (st : TailTraceState)
    (a b : List TailEvent) :
    runTail writeOk now st (a ++ b) = runTail writeOk now (runTail writeOk now st a) b :=
  List.foldl_append _ _ _ _

theorem runTail_frames_true (now : Int) (st : TailTraceState) (fs : List Frame) :
    (runTail (fun _ => true) now st (fs.map TailEvent.frame)).sess.tailConns
        = st.sess.tailConns
    ∧ (runTail (fun _ => true) now st (fs.map TailEvent.frame)).received
        = st.received ++ deliveriesOf st.sess.tailConns now fs := by
  induction fs generalizing st with
  | nil => simp [runTail, deliveriesOf]
  | cons f rest ih =>
    have hstep :
        stepTail (fun _ => true) now st (TailEvent.frame f)
          = { sess := appendEntry st.sess (ingestEntry now f)
              received := st.received
                ++ (st.sess.tailConns.map fun c => (c, ingestEntry now f))
              closed := st.closed } := by
      simp [stepTail, processFrame, broadcastToTail_true, appendEntry_tailConns]
    have h := ih (stepTail (fun _ => true) now st (TailEvent.frame f))
    rw [hstep] at h
    simp only [appendEntry_tailConns] at h
    constructor
    · rw [List.map_cons]
      show (runTail (fun _ => true) now
        (stepTail (fun _ => true) now st (TailEvent.frame f))
        (rest.map TailEvent.frame)).sess.tailConns = st.sess.tailConns
      rw [hstep]
      exact h.1
    · rw [List.map_cons]
      show (runTail (fun _ => true) now
        (stepTail (fun _ => true) now st (TailEvent.frame f))
        (rest.map TailEvent.frame)).received = _
      rw [hstep]
      rw [h.2]
      simp [deliveriesOf]

theorem connectProducer_closed_mem (st : ServerState)
    (device name ipv4 ipv6 : String) (connId : Nat) (now : Int) (c : Nat) :
    c ∈ (connectProducer st device name ipv4 ipv6 connId now).closed ↔
      c ∈ st.closed
      ∨ ∃ old, lookupSession st.sessions device = some old ∧ old.conn = some c := by
  unfold connectProducer
  cases h : lookupSession st.sessions device with
  | none => simp [h]
  | some old =>
    cases hc : old.conn with
    | none => simp [h, hc]
    | some c0 =>
      simp only [h, hc, List.mem_cons, Option.some.injEq]
      constructor
      · rintro (rfl | hm)
        · exact Or.inr ⟨old, rfl, hc⟩
        · exact Or.inl hm
      · rintro (hm | ⟨old', rfl, hc'⟩)
        · exact Or.inr hm
        · rw [hc] at hc'
          exact Or.inl (Option.some.inj hc').symm

theorem connectProducer_lookup (st : ServerState)
    (device name ipv4 ipv6 : String) (connId : Nat) (now : Int) :
    lookupSession (connectProducer st device name ipv4 ipv6 connId now).sessions device
      = some (newSession device name ipv4 ipv6 now connId) :=
  lookupSession_updateSession_self _ _ _

/-- A concrete session used to instantiate the theorems below: one
stored entry, a live producer, no consumers. -/
def demoSession : Session :=
  { DeviceHash := "d"
    Name := "Unknown Device"
    IPv4 := ""
    IPv6 := ""
    Connected := 0
    Logs := [{ ts := 100, msg := "boot" }]
    LogCount := 1
    conn := some 1
    tailConns := [] }

/-- A server state holding `demoSession` under device `d`. -/
def demoState : ServerState :=
  { sessions := [("d", demoSession)], closed := [] }

/-- A concrete session with a live producer (conn 1) and one attached
tail consumer (conn 7). -/
def demoTailSession : Session :=
  { DeviceHash := "d"
    Name := "N"
    IPv4 := ""
    IPv6 := ""
    Connected := 0
    Logs := []
    LogCount := 0
    conn := some 1
    tailConns := [7] }

/-- A server state holding `demoTailSession` under device `d`. -/
def demoTailState : ServerState :=
  { sessions := [("d", demoTailSession)], closed := [] }

/-- A concrete session with two attached tail consumers (conns 3 and
7). -/
def demoFan : Session :=
  { DeviceHash := "d"
    Name := "N"
    IPv4 := ""
    IPv6 := ""
    Connected := 0
    Logs := []
    LogCount := 0
    conn := some 1
    tailConns := [3, 7] }

/-- C2: contrary to the claim (and to the README's API table entry
"`/health` — Auth: None" and the route comment "Health check (no
auth)"), `handleHealth` validates the shared secret first: a `/health`
request without the secret parameter is answered `401 Unauthorized`
instead of the liveness report. -/
theorem health_rejects_missing_secret :
    handleHealth "s3cret" "" { sessions := [], closed := [] } 7
        = HealthResp.unauthorized
      ∧ handleHealth "s3cret" "wrong" demoState 7 = HealthResp.unauthorized := by
  constructor <;> rfl

/-- C6: the `since` time filter of `handleLogs` keeps exactly the
entries whose timestamp is strictly after `now - d`, preserving order;
in particular entries at `t-10m`, `t-2m`, `t-10s` filtered with
`since=5m` (300 s) yield exactly the last two. -/
theorem since_filter_strictly_after (now d : Int) (logs : List LogEntry) :
    filterSince (now - d) logs = logs.filter (fun e => now - d < e.ts)
    ∧ ∀ t : Int,
        filterSince (t - 300)
          [{ ts := t - 600, msg := "a" }, { ts := t - 120, msg := "b" },
           { ts := t - 10, msg := "c" }]
          = [{ ts := t - 120, msg := "b" }, { ts := t - 10, msg := "c" }] := by
  constructor
  · exact goFilter_eq_filter _ _
  · intro t
    simp [filterSince, goFilter, show ¬(t - 300 < t - 600) by omega,
      show t - 300 < t - 120 by omega, show t - 300 < t - 10 by omega]

/-- C8: `handleStream` rejects a missing/mismatched secret as
unauthorized and a missing `device` parameter as bad-request, in both
cases leaving the server state (registry and connections) entirely
unchanged. -/
theorem stream_gate_no_mutation (cfgSecret : String) (q : StreamQuery)
    (connId : Nat) (now : Int) (st : ServerState) :
    (q.secret ≠ cfgSecret →
        handleStreamConnect cfgSecret q connId now st = (.unauthorized, st))
    ∧ (q.secret = cfgSecret → q.device = "" →
        handleStreamConnect cfgSecret q connId now st = (.badRequest, st)) := by
  constructor
  · intro h
    simp [handleStreamConnect, checkSecret, h]
  · intro h hd
    simp [handleStreamConnect, checkSecret, h, hd]

/-- Witness for C8 at concrete inputs: an absent secret (empty string,
as Go's `Query().Get` yields) is rejected unauthorized, and a matching
secret with missing device is rejected bad-request; both leave the
state untouched. -/
theorem stream_gate_no_mutation_witness :
    handleStreamConnect "s" { secret := "", device := "x", name := "", ipv4 := "", ipv6 := "" }
        1 0 demoState = (.unauthorized, demoState)
    ∧ handleStreamConnect "s" { secret := "s", device := "", name := "", ipv4 := "", ipv6 := "" }
        1 0 demoState = (.badRequest, demoState) :=
  ⟨(stream_gate_no_mutation "s" _ 1 0 demoState).1 (by decide),
   (stream_gate_no_mutation "s" _ 1 0 demoState).2 rfl rfl⟩

/-- C9 counterexample: the claim fails as stated because the `since`
filter is evaluated against `time.Now()`.  Two `/logs` requests with
identical parameters (`since=5s`) on an unchanged store, observed at
clock readings 104 and 106, return different outputs: the entry at
timestamp 100 is inside the 5-second window at 104 but outside it at
106. -/
theorem logs_idempotence_cex :
    handleLogs "s" "d" { secret := "s", since := "5s", regex := "", format := "" }
        demoState 104
      ≠ handleLogs "s" "d" { secret := "s", since := "5s", regex := "", format := "" }
          demoState 106 := by
  decide

/-- C9 (amended): repeated `GET /logs/{id}` with identical parameters
and no new entries returns identical output whenever the `since`
parameter is absent (any two clock readings), and — the handler being a
pure function of request, store and clock — whenever both requests
observe the same clock reading. -/
theorem logs_idempotent_same_clock (cfgSecret device : String) (q : LogsQuery)
    (st : ServerState) (now now' : Int) :
    (q.since = "" → handleLogs cfgSecret device q st now
        = handleLogs cfgSecret device q st now')
    ∧ handleLogs cfgSecret device q st now = handleLogs cfgSecret device q st now := by
  refine ⟨fun h => ?_, rfl⟩
  simp [handleLogs, h]

/-- Witness for C9's amended theorem: without `since`, outputs at
clocks 104 and 106 coincide. -/
theorem logs_idempotent_same_clock_witness :
    handleLogs "s" "d" { secret := "s", since := "", regex := "", format := "" }
        demoState 104
      = handleLogs "s" "d" { secret := "s", since := "", regex := "", format := "" }
          demoState 106 :=
  (logs_idempotent_same_clock "s" "d" _ demoState 104 106).1 rfl

/-- C10: on an authorized `/logs` request for a known device, an
unparsable `since` duration is rejected as bad-request (`invalidSince`)
and — when `since` is absent or parsable — an invalid regex pattern is
rejected as bad-request (`invalidRegex`); the error responses carry no
log output (they correspond to `http.Error`, which writes only the
error line). -/
theorem logs_validation_bad_request (cfgSecret device : String) (q : LogsQuery)
    (st : ServerState) (now : Int) (sess : Session)
    (hs : q.secret = cfgSecret) (hd : device ≠ "")
    (hl : lookupSession st.sessions device = some sess) :
    (q.since ≠ "" → parseDuration q.since = none →
        handleLogs cfgSecret device q st now = .invalidSince)
    ∧ (∀ dur, parseDuration q.since = some dur → q.regex ≠ "" →
        regexValid q.regex = false →
        handleLogs cfgSecret device q st now = .invalidRegex)
    ∧ (q.since = "" → q.regex ≠ "" → regexValid q.regex = false →
        handleLogs cfgSecret device q st now = .invalidRegex) := by
  refine ⟨fun h1 h2 => ?_, fun dur h1 h2 h3 => ?_, fun h1 h2 h3 => ?_⟩
  · simp [handleLogs, checkSecret, hs, hd, hl, h1, h2]
  · simp only [handleLogs, checkSecret, hs, hd, hl, beq_self_eq_true, Bool.not_true,
      Bool.false_eq_true, if_false, if_neg hd, h1, h2, h3]
    by_cases hq : q.since = "" <;> simp [hq, h2, h3]
  · simp [handleLogs, checkSecret, hs, hd, hl, h1, h2, h3]

/-- Witness for C10 at concrete inputs: `since=xyz` (unparsable, as
`time.ParseDuration` also rejects it) gives `invalidSince`;
`since=5m` with the invalid pattern `[` gives `invalidRegex`. -/
theorem logs_validation_bad_request_witness :
    handleLogs "s" "d" { secret := "s", since := "xyz", regex := "", format := "" }
        demoState 0 = .invalidSince
    ∧ handleLogs "s" "d" { secret := "s", since := "5m", regex := "[", format := "" }
        demoState 0 = .invalidRegex :=
  ⟨(logs_validation_bad_request "s" "d" _ demoState 0 demoSession rfl (by decide)
      (by decide)).1 (by decide) (by decide),
   (logs_validation_bad_request "s" "d" _ demoState 0 demoSession rfl (by decide)
      (by decide)).2.1 300 (by decide) (by decide) (by decide)⟩

/-- C7: ingestion never rejects a producer frame — every frame stores
exactly one entry; on unmarshal failure the raw payload text becomes
the message and the arrival time the timestamp, and on a parsed entry
with absent/zero timestamp the arrival time is substituted. -/
theorem frame_ingestion_never_rejects (writeOk : Nat → Bool) (now : Int)
    (sess : Session) (f : Frame) :
    (processFrame writeOk now sess f).1.Logs = sess.Logs ++ [ingestEntry now f]
    ∧ (f.parse = .failure → ingestEntry now f = { ts := now, msg := f.raw })
    ∧ (∀ e, f.parse = .success e → e.ts = 0 →
        ingestEntry now f = { ts := now, msg := e.msg })
    ∧ (∀ e, f.parse = .success e → e.ts ≠ 0 → ingestEntry now f = e) := by
  refine ⟨?_, fun h => ?_, fun e h h0 => ?_, fun e h h0 => ?_⟩
  · show (broadcastToTail writeOk (appendEntry sess (ingestEntry now f))
      (ingestEntry now f)).1.Logs = _
    rw [broadcastToTail_sess]
    exact appendEntry_Logs sess (ingestEntry now f)
  · simp only [ingestEntry, h]
    split <;> simp_all
  · simp [ingestEntry, h, h0]
  · simp [ingestEntry, h, h0]

/-- Witness for C7 at concrete frames: an unparsable frame `hello raw`
is stored as a raw-text entry timestamped with the arrival time; a
parsed entry with zero timestamp gets the arrival time; a parsed entry
with its own timestamp is stored unchanged — and each frame appends
exactly one entry. -/
theorem frame_ingestion_never_rejects_witness :
    (processFrame (fun _ => true) 5 demoSession { raw := "hello raw", parse := .failure }).1.Logs
        = demoSession.Logs ++ [ingestEntry 5 { raw := "hello raw", parse := .failure }]
    ∧ ingestEntry 5 { raw := "hello raw", parse := .failure } = { ts := 5, msg := "hello raw" }
    ∧ ingestEntry 5 { raw := "x", parse := .success { ts := 0, msg := "m" } }
        = { ts := 5, msg := "m" }
    ∧ ingestEntry 5 { raw := "y", parse := .success { ts := 42, msg := "boot" } }
        = { ts := 42, msg := "boot" } :=
  ⟨(frame_ingestion_never_rejects (fun _ => true) 5 demoSession _).1,
   (frame_ingestion_never_rejects (fun _ => true) 5 demoSession
      { raw := "hello raw", parse := .failure }).2.1 rfl,
   (frame_ingestion_never_rejects (fun _ => true) 5 demoSession
      { raw := "x", parse := .success { ts := 0, msg := "m" } }).2.2.1 _ rfl rfl,
   (frame_ingestion_never_rejects (fun _ => true) 5 demoSession
      { raw := "y", parse := .success { ts := 42, msg := "boot" } }).2.2.2 _ rfl (by decide)⟩

/-- C3 counterexample: the claim's "the producer handle is set to
null" is false — after the producer CLOSED transition the session is
returned by lookup completely unchanged, its producer handle still
`some 1`, not `none` (nothing in the program ever nulls
`session.conn`). -/
theorem producer_close_keeps_handle_cex :
    lookupSession (producerDisconnect demoState 1).sessions "d" = some demoSession
    ∧ demoSession.conn = some 1
    ∧ demoSession.conn ≠ none := by
  refine ⟨rfl, rfl, by decide⟩

/-- C3 (amended): when a producer connection reaches CLOSED via
transport close or read error, the session registry is entirely
untouched — deviceID, metadata and stored entries are unchanged, and so
is the producer-handle field (it is not nulled); the only effect is
that the producer's transport connection is closed. -/
theorem producer_close_registry_frame (st : ServerState) (connId : Nat) :
    (producerDisconnect st connId).sessions = st.sessions
    ∧ (producerDisconnect st connId).closed = connId :: st.closed
    ∧ ∀ device, lookupSession (producerDisconnect st connId).sessions device
        = lookupSession st.sessions device :=
  ⟨rfl, rfl, fun _ => rfl⟩

/-- C1 counterexample: the claim's "every consumer handle attached to
the prior session is closed" is false — on a reconnect for device `d`
the eviction closes only the prior producer connection (conn 1); the
prior session's attached consumer (conn 7) is not closed. -/
theorem reconnect_eviction_consumers_cex :
    7 ∈ demoTailSession.tailConns
    ∧ (connectProducer demoTailState "d" "N" "" "" 2 5).closed = [1]
    ∧ 7 ∉ (connectProducer demoTailState "d" "N" "" "" 2 5).closed := by
  decide

/-- C1 (amended): for every sequence of producer connects under one
deviceID, after the last connect the registry lookup returns exactly
the session created by that last connect, and the producer handles of
the initially present session and of every superseded connect are
closed; the connections closed are exactly those producers — in
particular, consumer handles attached to the prior session are NOT
closed by eviction. -/
theorem reconnect_sequence_latest (st : ServerState)
    (device name ipv4 ipv6 : String) (l : List (Nat × Int)) (p : Nat × Int) :
    (lookupSession (connectFold device name ipv4 ipv6 (l ++ [p]) st).sessions device
        = some (newSession device name ipv4 ipv6 p.2 p.1))
    ∧ (∀ c, c ∈ (connectFold device name ipv4 ipv6 (l ++ [p]) st).closed ↔
        c ∈ st.closed
        ∨ (∃ old, lookupSession st.sessions device = some old ∧ old.conn = some c)
        ∨ c ∈ l.map Prod.fst)
    ∧ (∀ old, lookupSession st.sessions device = some old →
        ∀ t, t ∈ old.tailConns → t ∉ st.closed → old.conn ≠ some t →
          t ∉ l.map Prod.fst →
          t ∉ (connectFold device name ipv4 ipv6 (l ++ [p]) st).closed) := by
  have main : ∀ (l : List (Nat × Int)) (st : ServerState),
      (lookupSession (connectFold device name ipv4 ipv6 (l ++ [p]) st).sessions device
          = some (newSession device name ipv4 ipv6 p.2 p.1))
      ∧ (∀ c, c ∈ (connectFold device name ipv4 ipv6 (l ++ [p]) st).closed ↔
          c ∈ st.closed
          ∨ (∃ old, lookupSession st.sessions device = some old ∧ old.conn = some c)
          ∨ c ∈ l.map Prod.fst) := by
    intro l
    induction l with
    | nil =>
      intro st
      constructor
      · exact connectProducer_lookup st device name ipv4 ipv6 p.1 p.2
      · intro c
        rw [show connectFold device name ipv4 ipv6 ([] ++ [p]) st
            = connectProducer st device name ipv4 ipv6 p.1 p.2 from rfl]
        rw [connectProducer_closed_mem]
        simp
    | cons q rest ih =>
      intro st
      have hfold : connectFold device name ipv4 ipv6 ((q :: rest) ++ [p]) st
          = connectFold device name ipv4 ipv6 (rest ++ [p])
              (connectProducer st device name ipv4 ipv6 q.1 q.2) := rfl
      rcases ih (connectProducer st device name ipv4 ipv6 q.1 q.2) with ⟨ih1, ih2⟩
      constructor
      · rw [hfold]; exact ih1
      · intro c
        rw [hfold, ih2 c, connectProducer_closed_mem,
          connectProducer_lookup st device name ipv4 ipv6 q.1 q.2]
        simp only [Option.some.injEq, List.map_cons, List.mem_cons]
        constructor
        · rintro ((hm | ⟨old, ho, hc⟩) | ⟨old', rfl, hc'⟩ | hm)
          · exact Or.inl hm
          · exact Or.inr (Or.inl ⟨old, ho, hc⟩)
          · refine Or.inr (Or.inr (Or.inl ?_))
            have : (newSession device name ipv4 ipv6 q.2 q.1).conn = some q.1 := rfl
            rw [this] at hc'
            exact (Option.some.inj hc').symm
          · exact Or.inr (Or.inr (Or.inr hm))
        · rintro (hm | ⟨old, ho, hc⟩ | rfl | hm)
          · exact Or.inl (Or.inl hm)
          · exact Or.inl (Or.inr ⟨old, ho, hc⟩)
          · exact Or.inr (Or.inl ⟨newSession device name ipv4 ipv6 q.2 q.1, rfl, rfl⟩)
          · exact Or.inr (Or.inr hm)
  refine ⟨(main l st).1, (main l st).2, ?_⟩
  intro old hold t ht hcl hconn hl'
  rw [(main l st).2 t]
  rintro (h | ⟨old', ho', hc'⟩ | h)
  · exact hcl h
  · rw [hold] at ho'
    cases Option.some.inj ho'
    exact hconn hc'
  · exact hl' h

/-- Witness for C1's amended theorem on a concrete reconnect sequence:
two connects after an initial session with producer conn 1 and
consumer conn 7 — the final lookup returns the last session, and the
prior consumer 7 is not closed. -/
theorem reconnect_sequence_latest_witness :
    lookupSession
        (connectFold "d" "N" "" "" [(2, 5), (9, 8)] demoTailState).sessions "d"
        = some (newSession "d" "N" "" "" 8 9)
    ∧ 7 ∉ (connectFold "d" "N" "" "" [(2, 5), (9, 8)] demoTailState).closed :=
  have h := reconnect_sequence_latest demoTailState "d" "N" "" "" [(2, 5)] (9, 8)
  ⟨h.1,
   h.2.2 demoTailSession rfl 7 (by decide) (by decide) (by decide) (by decide)⟩

/-- C4: a consumer never receives an entry appended before it
attached.  For any session, any frames `fs` streamed before consumer
`c` attaches and any frames `gs` streamed after (with all consumer
writes succeeding), `c` receives exactly the entries of `gs`, in order
— in particular `[E1, E2]` then attach then `[E3]` delivers exactly
`[E3]`. -/
theorem consumer_attach_after (now : Int) (sess : Session) (c : Nat)
    (hc : c ∉ sess.tailConns) (fs gs : List Frame) :
    (((runTail (fun _ => true) now { sess := sess, received := [], closed := [] }
          (fs.map TailEvent.frame
            ++ TailEvent.attach c :: gs.map TailEvent.frame)).received.filter
        fun q => q.1 == c).map Prod.snd)
      = gs.map (ingestEntry now) := by
  rw [runTail_append]
  rw [show ∀ (st : TailTraceState),
      runTail (fun _ => true) now st (TailEvent.attach c :: gs.map TailEvent.frame)
        = runTail (fun _ => true) now
            (stepTail (fun _ => true) now st (TailEvent.attach c))
            (gs.map TailEvent.frame) from fun _ => rfl]
  obtain ⟨hA1, hA2⟩ := runTail_frames_true now
    { sess := sess, received := [], closed := [] } fs
  obtain ⟨hB1, hB2⟩ := runTail_frames_true now
    (stepTail (fun _ => true) now
      (runTail (fun _ => true) now { sess := sess, received := [], closed := [] }
        (fs.map TailEvent.frame))
      (TailEvent.attach c)) gs
  rw [hB2]
  have hBsess : (stepTail (fun _ => true) now
      (runTail (fun _ => true) now { sess := sess, received := [], closed := [] }
        (fs.map TailEvent.frame))
      (TailEvent.attach c)).sess.tailConns = sess.tailConns ++ [c] := by
    simp [stepTail, hA1]
  have hBrec : (stepTail (fun _ => true) now
      (runTail (fun _ => true) now { sess := sess, received := [], closed := [] }
        (fs.map TailEvent.frame))
      (TailEvent.attach c)).received = deliveriesOf sess.tailConns now fs := by
    simp [stepTail]
    rw [hA2]
    simp
  rw [hBsess, hBrec]
  have hzero : sess.tailConns.count c = 0 := List.count_eq_zero.mpr hc
  have hone : (sess.tailConns ++ [c]).count c = 1 := by
    rw [List.count_append, hzero]
    simp
  rw [List.filter_append, deliveriesOf_filter_zero hzero,
    deliveriesOf_filter_one hone]
  simp

/-- Witness for C4 on the spec's concrete scenario: entries E1, E2 are
streamed, consumer 9 attaches, entry E3 is streamed; consumer 9
receives exactly [E3]. -/
theorem consumer_attach_after_witness :
    (((runTail (fun _ => true) 5
          { sess := demoSession, received := [], closed := [] }
          ([{ raw := "E1", parse := FrameParse.failure },
            { raw := "E2", parse := FrameParse.failure }].map TailEvent.frame
            ++ TailEvent.attach 9
              :: [{ raw := "E3", parse := FrameParse.failure }].map
                  TailEvent.frame)).received.filter
        fun q => q.1 == 9).map Prod.snd)
      = [{ raw := "E3", parse := FrameParse.failure }].map (ingestEntry 5) :=
  consumer_attach_after 5 demoSession 9 (by decide)
    [{ raw := "E1", parse := FrameParse.failure },
     { raw := "E2", parse := FrameParse.failure }]
    [{ raw := "E3", parse := FrameParse.failure }]

/-- C5: in one publish pass over a session's consumers (with no
duplicate handles, as each connection attaches once), every handle
whose write fails is removed from the consumer set and closed in that
pass, every handle whose write succeeds is delivered the entry in that
same pass, and a failed handle receives nothing from any later
sequence of publishes. -/
theorem broadcast_dead_pruned (writeOk : Nat → Bool) (sess : Session)
    (entry : LogEntry) (hnd : sess.tailConns.Nodup) :
    (∀ c, c ∈ sess.tailConns → writeOk c = false →
        c ∉ (broadcastToTail writeOk sess entry).1.tailConns
        ∧ c ∈ (broadcastToTail writeOk sess entry).2.2)
    ∧ (∀ c, c ∈ sess.tailConns → writeOk c = true →
        (c, entry) ∈ (broadcastToTail writeOk sess entry).2.1)
    ∧ (∀ c, c ∈ sess.tailConns → writeOk c = false →
        ∀ passes e',
          (c, e') ∉ (publishSeq (broadcastToTail writeOk sess entry).1 passes).2) := by
  have hprune : ∀ c, c ∈ sess.tailConns → writeOk c = false →
      c ∉ (broadcastToTail writeOk sess entry).1.tailConns := by
    intro c hc hw
    rw [broadcastToTail_sess]
    exact not_mem_pruneDead hnd (List.mem_filter.mpr ⟨hc, by simp [hw]⟩)
  refine ⟨fun c hc hw => ⟨hprune c hc hw, ?_⟩, fun c hc hw => ?_,
    fun c hc hw passes e' => ?_⟩
  · rw [broadcastToTail_dead]
    exact List.mem_filter.mpr ⟨hc, by simp [hw]⟩
  · rw [broadcastToTail_delivered]
    exact List.mem_map.mpr ⟨c, List.mem_filter.mpr ⟨hc, hw⟩, rfl⟩
  · exact publishSeq_not_mem (hprune c hc hw) passes e'

/-- Witness for C5 on a concrete pass: consumers [3, 7], the write to
7 fails — 7 is pruned and closed while 3 still receives the entry in
the same pass, and 7 receives nothing from a later publish. -/
theorem broadcast_dead_pruned_witness :
    (7 ∉ (broadcastToTail (fun c => c == 3) demoFan { ts := 1, msg := "e" }).1.tailConns
      ∧ 7 ∈ (broadcastToTail (fun c => c == 3) demoFan { ts := 1, msg := "e" }).2.2)
    ∧ (3, ({ ts := 1, msg := "e" } : LogEntry))
        ∈ (broadcastToTail (fun c => c == 3) demoFan { ts := 1, msg := "e" }).2.1
    ∧ (7, ({ ts := 2, msg := "f" } : LogEntry))
        ∉ (publishSeq (broadcastToTail (fun c => c == 3) demoFan { ts := 1, msg := "e" }).1
            [(fun _ => true, { ts := 2, msg := "f" })]).2 :=
  have h := broadcast_dead_pruned (fun c => c == 3) demoFan { ts := 1, msg := "e" }
    (by decide)
  ⟨h.1 7 (by decide) (by decide), h.2.1 3 (by decide) rfl,
   h.2.2 7 (by decide) (by decide) [(fun _ => true, { ts := 2, msg := "f" })] _⟩

end DevSocket
